import Mathlib

/-!
Verification of the git backend engine of the LinuxGit desktop client
(src-tauri/src/git: status.rs, commit.rs, branch.rs, remote.rs).

The Rust code is a thin orchestration layer over libgit2 (the `git2` crate).
We shallowly embed that layer: repository state (object store, refs, HEAD,
index, working directory, sequencer state) is explicit data, and the libgit2
primitives the code calls (cherrypick/revert/merge staging, merge analysis,
diffing, checkout, hashing, fetch) are supplied as a `Git2Engine` record of
functions, since their algorithms live outside this repository.  Each
embedded operation mirrors the control flow of its Rust source function,
including the order of fallible steps and the exact argument positions
passed to libgit2.

Numeric object ids stand in for git SHAs; paths and messages are strings.
-/

namespace LinuxGit

abbrev Oid := Nat

abbrev Path := String

/-- Author or committer identity, as produced by git signatures. -/
structure Signature where
  name : String
  email : String
deriving DecidableEq, Repr

/-- Commit object in the object store (git/mod.rs has no such struct; this is
the libgit2 `git2::Commit` data the code reads and writes). -/
structure CommitObj where
  author : Signature
  committer : Signature
  message : String
  tree : Oid
  parents : List Oid
deriving DecidableEq, Repr

/-- Error taxonomy of git/mod.rs `GitError`.  `Wrapped` stands for the
`Git2(git2::Error)` variant that wraps a raw libgit2 error message. -/
inductive GitError where
  | RepoNotFound (path : String)
  | NotARepo (path : String)
  | OperationFailed (msg : String)
  | BranchNotFound (name : String)
  | CommitNotFound (oid : Oid)
  | FileNotFound (path : String)
  | MergeConflict
  | Wrapped (msg : String)
deriving DecidableEq, Repr

/-- File status kinds of git/mod.rs `FileStatusType`. -/
inductive FileStatusType where
  | added
  | modified
  | deleted
  | renamed
  | untracked
  | conflict
deriving DecidableEq, Repr

/-- One entry of a `StatusInfo` bucket (git/mod.rs `FileStatus`). -/
structure FileStatus where
  path : Path
  status : FileStatusType
  staged : Bool
  old_path : Option Path
deriving DecidableEq, Repr

/-- Result of the status engine (git/mod.rs `StatusInfo`). -/
structure StatusInfo where
  staged : List FileStatus
  unstaged : List FileStatus
  untracked : List FileStatus
  conflicts : List FileStatus
deriving DecidableEq, Repr

/-- One entry of `repo.statuses(...)` as consumed by get_repo_status: the
path plus the libgit2 status flags and rename old-paths the code reads.
libgit2 reports at most one status entry per path. -/
structure StatusEntry where
  path : Path
  conflicted : Bool
  index_new : Bool
  index_modified : Bool
  index_deleted : Bool
  index_renamed : Bool
  wt_new : Bool
  wt_modified : Bool
  wt_deleted : Bool
  wt_renamed : Bool
  head_old_path : Option Path
  wt_old_path : Option Path
deriving DecidableEq, Repr

/-- Contribution of one status entry to the `staged` bucket, mirroring the
staged-side if/else-if chain of get_repo_status (status.rs lines 36-64); a
conflicted entry contributes nothing because the loop `continue`s. -/
def stagedOf (e : StatusEntry) : List FileStatus :=
  if e.conflicted then []
  else if e.index_new then [⟨e.path, .added, true, none⟩]
  else if e.index_modified then [⟨e.path, .modified, true, none⟩]
  else if e.index_deleted then [⟨e.path, .deleted, true, none⟩]
  else if e.index_renamed then [⟨e.path, .renamed, true, e.head_old_path⟩]
  else []

/-- Contribution of one status entry to the `untracked` bucket
(status.rs lines 67-73). -/
def untrackedOf (e : StatusEntry) : List FileStatus :=
  if e.conflicted then []
  else if e.wt_new then [⟨e.path, .untracked, false, none⟩]
  else []

/-- Contribution of one status entry to the `unstaged` bucket, mirroring the
worktree-side else-if chain (status.rs lines 74-95); `wt_new` goes to
`untracked` instead. -/
def unstagedOf (e : StatusEntry) : List FileStatus :=
  if e.conflicted then []
  else if e.wt_new then []
  else if e.wt_modified then [⟨e.path, .modified, false, none⟩]
  else if e.wt_deleted then [⟨e.path, .deleted, false, none⟩]
  else if e.wt_renamed then [⟨e.path, .renamed, false, e.wt_old_path⟩]
  else []

/-- Contribution of one status entry to the `conflicts` bucket
(status.rs lines 25-33). -/
def conflictsOf (e : StatusEntry) : List FileStatus :=
  if e.conflicted then [⟨e.path, .conflict, false, none⟩] else []

/-- Embedding of status.rs `get_repo_status`: the Rust loop pushes, per
entry, at most one element into each of the four buckets, in entry order;
a conflicted entry goes only to `conflicts` and skips the rest of the loop
body. -/
def get_repo_status (entries : List StatusEntry) : StatusInfo :=
  { staged := entries.flatMap stagedOf
    unstaged := entries.flatMap unstagedOf
    untracked := entries.flatMap untrackedOf
    conflicts := entries.flatMap conflictsOf }

theorem path_of_stagedOf {e : StatusEntry} {f : FileStatus}
    (h : f ∈ stagedOf e) : f.path = e.path := by
  unfold stagedOf at h
  repeat' split at h
  all_goals simp_all

theorem path_of_unstagedOf {e : StatusEntry} {f : FileStatus}
    (h : f ∈ unstagedOf e) : f.path = e.path := by
  unfold unstagedOf at h
  repeat' split at h
  all_goals simp_all

theorem path_of_untrackedOf {e : StatusEntry} {f : FileStatus}
    (h : f ∈ untrackedOf e) : f.path = e.path := by
  unfold untrackedOf at h
  repeat' split at h
  all_goals simp_all

theorem path_of_conflictsOf {e : StatusEntry} {f : FileStatus}
    (h : f ∈ conflictsOf e) : f.path = e.path := by
  unfold conflictsOf at h
  split at h
  all_goals simp_all

theorem conflictsOf_nonempty_conflicted {e : StatusEntry} {f : FileStatus}
    (h : f ∈ conflictsOf e) : e.conflicted = true := by
  unfold conflictsOf at h
  split at h
  · assumption
  · simp_all

theorem stagedOf_not_conflicted {e : StatusEntry}
    (h : e.conflicted = true) : stagedOf e = [] := by
  simp [stagedOf, h]

theorem unstagedOf_not_conflicted {e : StatusEntry}
    (h : e.conflicted = true) : unstagedOf e = [] := by
  simp [unstagedOf, h]

theorem untrackedOf_not_conflicted {e : StatusEntry}
    (h : e.conflicted = true) : untrackedOf e = [] := by
  simp [untrackedOf, h]

/-- C4.  For every repository state (any list of libgit2 status entries,
one per path), every path that get_repo_status classifies as conflicted
appears only in the `conflicts` bucket of the returned StatusInfo and in
none of `staged`, `unstaged`, or `untracked`. -/
theorem conflicted_path_only_in_conflicts (entries : List StatusEntry)
    (hnd : (entries.map StatusEntry.path).Nodup) (p : Path)
    (hc : p ∈ (get_repo_status entries).conflicts.map FileStatus.path) :
    p ∉ (get_repo_status entries).staged.map FileStatus.path ∧
    p ∉ (get_repo_status entries).unstaged.map FileStatus.path ∧
    p ∉ (get_repo_status entries).untracked.map FileStatus.path := by
  simp only [get_repo_status, List.mem_map, List.mem_flatMap] at hc ⊢
  obtain ⟨f, ⟨e, he, hfe⟩, hfp⟩ := hc
  have hep : e.path = p := by rw [← hfp]; exact (path_of_conflictsOf hfe).symm
  have hecf : e.conflicted = true := conflictsOf_nonempty_conflicted hfe
  refine ⟨?_, ?_, ?_⟩ <;>
  · rintro ⟨g, ⟨e2, he2, hge2⟩, hgp⟩
    by_cases heq : e2 = e
    · subst heq
      first
        | (rw [stagedOf_not_conflicted hecf] at hge2; simp at hge2)
        | (rw [unstagedOf_not_conflicted hecf] at hge2; simp at hge2)
        | (rw [untrackedOf_not_conflicted hecf] at hge2; simp at hge2)
    · have he2p : e2.path = p := by
        rw [← hgp]
        first
          | exact (path_of_stagedOf hge2).symm
          | exact (path_of_unstagedOf hge2).symm
          | exact (path_of_untrackedOf hge2).symm
      have : e2.path = e.path := by rw [he2p, hep]
      exact heq (List.inj_on_of_nodup_map hnd he2 he this)

/-- Witness for C4 at a concrete status listing: one conflicted entry and
one staged-modified entry. -/
theorem conflicted_path_only_in_conflicts_witness :
    "a.txt" ∉ (get_repo_status
      [⟨"a.txt", true, false, false, false, false, false, false, false, false,
        none, none⟩,
       ⟨"b.txt", false, false, true, false, false, false, false, false, false,
        none, none⟩]).staged.map FileStatus.path :=
  (conflicted_path_only_in_conflicts
    [⟨"a.txt", true, false, false, false, false, false, false, false, false,
      none, none⟩,
     ⟨"b.txt", false, false, true, false, false, false, false, false, false,
      none, none⟩]
    (by decide) "a.txt" (by decide)).1

/-! ## Repository state model -/

/-- Index (staging area): stage-0 entries mapping a path to a blob id, plus
the set of paths that currently carry unmerged conflict stages. -/
structure IndexState where
  entries : List (Path × Oid)
  conflicted : List Path
deriving DecidableEq, Repr

/-- Embedding of `git2::Index::has_conflicts`. -/
def IndexState.has_conflicts (i : IndexState) : Bool :=
  !i.conflicted.isEmpty

/-- Association-list lookup used for object stores, refs and index entries. -/
def lookupA {α : Type} : List (Path × α) → Path → Option α
  | [], _ => none
  | (q, v) :: rest, p => if q = p then some v else lookupA rest p

/-- Association-list lookup keyed by object id. -/
def lookupO {α : Type} : List (Oid × α) → Oid → Option α
  | [], _ => none
  | (q, v) :: rest, o => if q = o then some v else lookupO rest o

/-- Replace (or insert) the stage-0 index entry for a path. -/
def setEntry (es : List (Path × Oid)) (p : Path) (o : Oid) : List (Path × Oid) :=
  es.filter (fun e => e.1 != p) ++ [(p, o)]

/-- Remove the stage-0 index entry for a path, if any. -/
def removeEntry (es : List (Path × Oid)) (p : Path) : List (Path × Oid) :=
  es.filter (fun e => e.1 != p)

/-- HEAD of the repository: attached to a branch, detached at a commit, or
an unborn branch (symbolic ref to a branch that has no commit yet). -/
inductive HeadState where
  | attached (branch : String)
  | detached (oid : Oid)
  | unborn (branch : String)
deriving DecidableEq, Repr

/-- Sequencer / merge state files (MERGE_HEAD, CHERRY_PICK_HEAD, REVERT_HEAD
and MERGE_MSG): `inProgress` after `repo.cherrypick` / `repo.revert` /
`repo.merge` stage a result, `clean` after `repo.cleanup_state()`. -/
inductive RepoOpState where
  | clean
  | inProgress
deriving DecidableEq, Repr

/-- Whole-repository state threaded through the embedded operations. -/
structure RepoState where
  commits : List (Oid × CommitObj)
  trees : List (Oid × List (Path × Oid))
  branches : List (String × Oid)
  head : HeadState
  index : IndexState
  workdir : List (Path × String)
  opState : RepoOpState
  sig : Option Signature
  nextOid : Oid
deriving DecidableEq, Repr

/-- Embedding of `repo.find_commit`. -/
def findCommit (s : RepoState) (o : Oid) : Option CommitObj :=
  lookupO s.commits o

/-- Embedding of `repo.find_branch(name, BranchType::Local)`: the branch's
tip commit id, when the branch exists. -/
def lookupBranch (s : RepoState) (name : String) : Option Oid :=
  lookupA s.branches name

/-- Retarget a branch ref (`git_reference_set_target` on a direct ref). -/
def setBranch (s : RepoState) (name : String) (o : Oid) : RepoState :=
  { s with branches := (name, o) :: s.branches.filter (fun b => b.1 ≠ name) }

/-- Embedding of `repo.head()?.target()`: resolving HEAD to a commit id
fails on an unborn branch or a dangling symbolic ref. -/
def resolve_head (s : RepoState) : Except GitError Oid :=
  match s.head with
  | .attached b =>
    match lookupBranch s b with
    | some o => .ok o
    | none => .error (.Wrapped "reference not found")
  | .detached o => .ok o
  | .unborn _ => .error (.Wrapped "reference not found")

/-- Embedding of `head.shorthand()` on the reference returned by
`repo.head()`: the branch name when attached, the literal "HEAD" when
detached, and nothing when `repo.head()` itself fails. -/
def head_shorthand (s : RepoState) : Option String :=
  match s.head with
  | .attached b => if (lookupBranch s b).isSome then some b else none
  | .detached _ => some "HEAD"
  | .unborn _ => none

/-- Result row returned to the UI for one commit (git/mod.rs `CommitInfo`);
the short-sha prefix and the human-readable relative date are elided since
they are string renderings of `sha` and of the wall clock. -/
structure CommitInfo where
  sha : Oid
  message : String
  author : String
  email : String
  parents : List Oid
deriving DecidableEq, Repr

/-- Embedding of commit.rs `commit_to_info`. -/
def commit_to_info (o : Oid) (c : CommitObj) : CommitInfo :=
  { sha := o
    message := c.message
    author := c.author.name
    email := c.author.email
    parents := c.parents }

/-- Embedding of `repo.commit(Some("HEAD"), author, committer, message,
tree, parents)`: appends a fresh commit object to the store and advances
HEAD — the current branch when attached, HEAD itself when detached.
Argument order is exactly libgit2's: author first, committer second. -/
def mk_commit (s : RepoState) (author committer : Signature) (message : String)
    (tree : Oid) (parents : List Oid) : RepoState × Oid :=
  let o := s.nextOid
  let c : CommitObj := ⟨author, committer, message, tree, parents⟩
  let s1 := { s with commits := (o, c) :: s.commits, nextOid := s.nextOid + 1 }
  match s1.head with
  | .attached b => (setBranch s1 b o, o)
  | .unborn b => ({ s1 with head := .attached b,
                            branches := (b, o) :: s1.branches }, o)
  | .detached _ => ({ s1 with head := .detached o }, o)

/-- Delta status kinds read off a libgit2 diff delta. -/
inductive DeltaStatus where
  | added
  | deleted
  | modified
  | renamed
  | conflicted
  | untrackedD
  | other
deriving DecidableEq, Repr

/-- One delta of a libgit2 tree-to-tree diff, with the fields
get_commit_diff reads. -/
structure DeltaInfo where
  new_path : Option Path
  old_path : Option Path
  status : DeltaStatus
  new_binary : Bool
  old_binary : Bool
deriving DecidableEq, Repr

/-- Hunk of a structured diff (git/mod.rs `DiffHunk`); get_commit_diff
never populates these. -/
structure DiffHunk where
  header : String
  old_start : Nat
  old_lines : Nat
  new_start : Nat
  new_lines : Nat
deriving DecidableEq, Repr

/-- Structured per-file diff (git/mod.rs `FileDiff`). -/
structure FileDiff where
  path : Path
  old_path : Option Path
  status : FileStatusType
  hunks : List DiffHunk
  is_binary : Bool
  additions : Nat
  deletions : Nat
deriving DecidableEq, Repr

/-- Result of `git_merge_analysis` for a single head, mirroring the three
bitflags the code tests (`is_up_to_date`, `is_fast_forward`, `is_normal`). -/
structure MergeAnalysisResult where
  up_to_date : Bool
  fast_forward : Bool
  normal : Bool
deriving DecidableEq, Repr

/-- Behaviours of libgit2 (and, for fetch, of the network transport) that
the Rust layer invokes but whose algorithms live outside this repository.
`cherrypick_index`, `revert_index` and `merge_index` give the index staged
by `repo.cherrypick` / `repo.revert` / `repo.merge` — possibly conflicted;
`merge_analysis` gives the `git_merge_analysis` bitflags for one head;
`hash_blob` / `hash_tree` are git's content addressing; `checkout_head_force`
gives the working directory produced by a forced checkout of HEAD, and
`checkout_tree_safe` the (fallible, conflict-checking) default-mode
`checkout_tree` of a tree;
`diff_deltas` and the two stat functions describe `diff_tree_to_tree`
(old tree `none` means the empty tree); `fetch` performs the network fetch
of remote.rs `fetch` and `fetch_head` reads FETCH_HEAD afterwards. -/
structure Git2Engine where
  hash_blob : String → Oid
  hash_tree : List (Path × Oid) → Oid
  cherrypick_index : RepoState → Oid → IndexState
  revert_index : RepoState → Oid → IndexState
  merge_index : RepoState → Oid → IndexState
  merge_analysis : RepoState → Oid → MergeAnalysisResult
  checkout_head_force : RepoState → List (Path × String)
  checkout_tree_safe : RepoState → Oid → Except GitError (List (Path × String))
  diff_deltas : RepoState → Option Oid → Oid → List DeltaInfo
  diff_insertions : RepoState → Option Oid → Oid → Nat
  diff_deletions : RepoState → Option Oid → Oid → Nat
  fetch : RepoState → String → Except GitError RepoState
  fetch_head : RepoState → Option Oid

/-- Embedding of `repo.head()?.peel_to_commit()?`: resolve HEAD to a commit
id, then load the commit object. -/
def head_peel_commit (s : RepoState) : Except GitError (Oid × CommitObj) :=
  match resolve_head s with
  | .error e => .error e
  | .ok o =>
    match findCommit s o with
    | some c => .ok (o, c)
    | none => .error (.Wrapped "object not found")

/-! ## Commit graph mutator (commit.rs, branch.rs) -/

/-- Embedding of commit.rs `cherry_pick_commit` (lines 89-125).  The mutated
repository state is returned alongside the result, also on error, so the
theorems can speak about what an aborted operation leaves behind.
`repo.cherrypick` stages its (possibly conflicted) result into the index and
records CHERRY_PICK_HEAD; on a clean index the code writes the tree and calls
`repo.commit(Some("HEAD"), &sig, &commit.author(), ...)` — so the repository
signature is passed in libgit2's AUTHOR position and the picked commit's
original author in the COMMITTER position — then `repo.cleanup_state()`. -/
def cherry_pick_commit (eng : Git2Engine) (s : RepoState) (oid : Oid) :
    Except GitError CommitInfo × RepoState :=
  match findCommit s oid with
  | none => (.error (.CommitNotFound oid), s)
  | some commit =>
    let s1 : RepoState :=
      { s with index := eng.cherrypick_index s oid, opState := .inProgress }
    if s1.index.has_conflicts then
      (.error .MergeConflict, s1)
    else
      let treeOid := eng.hash_tree s1.index.entries
      let s2 := { s1 with trees := (treeOid, s1.index.entries) :: s1.trees }
      match s2.sig with
      | none => (.error (.Wrapped "config value user.name was not found"), s2)
      | some sig =>
        match head_peel_commit s2 with
        | .error e => (.error e, s2)
        | .ok (headOid, _) =>
          let (s3, newOid) :=
            mk_commit s2 sig commit.author commit.message treeOid [headOid]
          let s4 := { s3 with opState := .clean }
          match findCommit s4 newOid with
          | some c => (.ok (commit_to_info newOid c), s4)
          | none => (.error (.Wrapped "object not found"), s4)

/-- First line of a commit message, as `message.lines().next().unwrap_or("")`
reads it. -/
def firstLine (msg : String) : String :=
  String.mk (msg.data.takeWhile (fun c => c != '\n'))

/-- Embedding of commit.rs `revert_commit` (lines 128-169): `repo.revert`
stages the inverse changes (possibly conflicted) and records REVERT_HEAD;
on a clean index the code commits with the repository signature as both
author and committer, then cleans up. -/
def revert_commit (eng : Git2Engine) (s : RepoState) (oid : Oid) :
    Except GitError CommitInfo × RepoState :=
  match findCommit s oid with
  | none => (.error (.CommitNotFound oid), s)
  | some commit =>
    let s1 : RepoState :=
      { s with index := eng.revert_index s oid, opState := .inProgress }
    if s1.index.has_conflicts then
      (.error .MergeConflict, s1)
    else
      let treeOid := eng.hash_tree s1.index.entries
      let s2 := { s1 with trees := (treeOid, s1.index.entries) :: s1.trees }
      match s2.sig with
      | none => (.error (.Wrapped "config value user.name was not found"), s2)
      | some sig =>
        match head_peel_commit s2 with
        | .error e => (.error e, s2)
        | .ok (headOid, _) =>
          let msg := "Revert \"" ++ firstLine commit.message ++
            "\"\n\nThis reverts commit " ++ toString oid ++ "."
          let (s3, newOid) := mk_commit s2 sig sig msg treeOid [headOid]
          let s4 := { s3 with opState := .clean }
          match findCommit s4 newOid with
          | some c => (.ok (commit_to_info newOid c), s4)
          | none => (.error (.Wrapped "object not found"), s4)

/-- Embedding of commit.rs `merge_commit` (lines 225-282).  The
fast-forward arm runs `repo.find_reference("HEAD")` followed by
`reference.set_target(oid, ...)`: `git_reference_lookup("HEAD")` returns the
HEAD reference itself, which is SYMBOLIC whenever HEAD is attached to a
branch (or unborn), and libgit2's `git_reference_set_target` refuses any
non-direct reference with the error "cannot set OID on symbolic reference".
Only a detached HEAD is a direct reference that this call can retarget, in
which case the code then force-checks-out HEAD.  The normal arm mirrors the
shared conflict-check / write-tree / commit / cleanup state machine; the
commit message elides the Rust 7-character sha truncation (our ids are
numerals). -/
def merge_commit (eng : Git2Engine) (s : RepoState) (oid : Oid) :
    Except GitError CommitInfo × RepoState :=
  match findCommit s oid with
  | none => (.error (.CommitNotFound oid), s)
  | some commit =>
    let ana := eng.merge_analysis s oid
    if ana.up_to_date then
      (.ok (commit_to_info oid commit), s)
    else if ana.fast_forward then
      match s.head with
      | .detached _ =>
        let s1 := { s with head := .detached oid }
        let s2 := { s1 with workdir := eng.checkout_head_force s1 }
        (.ok (commit_to_info oid commit), s2)
      | _ => (.error (.Wrapped "cannot set OID on symbolic reference"), s)
    else
      let s1 : RepoState :=
        { s with index := eng.merge_index s oid, opState := .inProgress }
      if s1.index.has_conflicts then
        (.error .MergeConflict, s1)
      else
        let treeOid := eng.hash_tree s1.index.entries
        let s2 := { s1 with trees := (treeOid, s1.index.entries) :: s1.trees }
        match s2.sig with
        | none => (.error (.Wrapped "config value user.name was not found"), s2)
        | some sig =>
          match head_peel_commit s2 with
          | .error e => (.error e, s2)
          | .ok (headOid, _) =>
            let msg := "Merge commit '" ++ toString oid ++ "' into " ++
              ((head_shorthand s2).getD "HEAD")
            let (s3, newOid) := mk_commit s2 sig sig msg treeOid [headOid, oid]
            let s4 := { s3 with opState := .clean }
            match findCommit s4 newOid with
            | some c => (.ok (commit_to_info newOid c), s4)
            | none => (.error (.Wrapped "object not found"), s4)

/-- Embedding of branch.rs `merge_branch` (lines 159-217).  The
fast-forward arm checks out the target tree in default (safe) mode first,
then retargets via `repo.head()?` — which, unlike `find_reference("HEAD")`,
RESOLVES the symbolic HEAD down to the underlying branch reference, a direct
ref that `set_target` accepts.  The normal arm is guarded by `is_normal` and
mirrors the shared conflict-check / commit / cleanup machine; any other
analysis outcome is `OperationFailed("Merge failed")`. -/
def merge_branch (eng : Git2Engine) (s : RepoState) (name : String) :
    Except GitError Unit × RepoState :=
  match lookupBranch s name with
  | none => (.error (.BranchNotFound name), s)
  | some tip =>
    let ana := eng.merge_analysis s tip
    if ana.up_to_date then
      (.ok (), s)
    else if ana.fast_forward then
      match findCommit s tip with
      | none => (.error (.Wrapped "object not found"), s)
      | some _ =>
        match eng.checkout_tree_safe s tip with
        | .error e => (.error e, s)
        | .ok wd =>
          let s1 := { s with workdir := wd }
          match s1.head with
          | .attached b =>
            if (lookupBranch s1 b).isSome then (.ok (), setBranch s1 b tip)
            else (.error (.Wrapped "reference not found"), s1)
          | .detached _ => (.ok (), { s1 with head := .detached tip })
          | .unborn _ => (.error (.Wrapped "reference not found"), s1)
    else if ana.normal then
      let s1 : RepoState :=
        { s with index := eng.merge_index s tip, opState := .inProgress }
      if s1.index.has_conflicts then
        (.error .MergeConflict, s1)
      else
        let treeOid := eng.hash_tree s1.index.entries
        let s2 := { s1 with trees := (treeOid, s1.index.entries) :: s1.trees }
        match s2.sig with
        | none => (.error (.Wrapped "config value user.name was not found"), s2)
        | some sig =>
          match head_peel_commit s2 with
          | .error e => (.error e, s2)
          | .ok (headOid, _) =>
            match findCommit s2 tip with
            | none => (.error (.Wrapped "object not found"), s2)
            | some _ =>
              let (s3, _) := mk_commit s2 sig sig
                ("Merge branch '" ++ name ++ "'") treeOid [headOid, tip]
              (.ok (), { s3 with opState := .clean })
    else
      (.error (.OperationFailed "Merge failed"), s)

/-! ## Concrete states and engines used by witnesses and evaluations -/

/-- Repository-configured signature of the concrete example states. -/
def sigRepo : Signature := ⟨"Repo Owner", "owner@example.com"⟩

/-- Original author of the example commit being picked or reverted. -/
def sigUpstream : Signature := ⟨"Upstream Author", "upstream@example.com"⟩

/-- Root commit of the example repository. -/
def commitInit : CommitObj := ⟨sigRepo, sigRepo, "init", 10, []⟩

/-- Feature commit of the example repository, authored upstream. -/
def commitFeat : CommitObj := ⟨sigUpstream, sigUpstream, "feat", 11, [1]⟩

/-- Two-commit example repository: `main` at the root commit, `feature`
one commit ahead, HEAD attached to `main`, clean index, a configured
signature. -/
def baseState : RepoState :=
  { commits := [(1, commitInit), (2, commitFeat)]
    trees := [(10, []), (11, [("a.txt", 5)])]
    branches := [("main", 1), ("feature", 2)]
    head := .attached "main"
    index := ⟨[("a.txt", 5)], []⟩
    workdir := [("a.txt", "x")]
    opState := .clean
    sig := some sigRepo
    nextOid := 100 }

/-- Engine whose three-way merges all end with an unresolved conflict on
"a.txt", and whose merge analysis reports a normal merge. -/
def conflictEngine : Git2Engine :=
  { hash_blob := fun _ => 0
    hash_tree := fun _ => 0
    cherrypick_index := fun _ _ => ⟨[], ["a.txt"]⟩
    revert_index := fun _ _ => ⟨[], ["a.txt"]⟩
    merge_index := fun _ _ => ⟨[], ["a.txt"]⟩
    merge_analysis := fun _ _ => ⟨false, false, true⟩
    checkout_head_force := fun s => s.workdir
    checkout_tree_safe := fun s _ => .ok s.workdir
    diff_deltas := fun _ _ _ => []
    diff_insertions := fun _ _ _ => 0
    diff_deletions := fun _ _ _ => 0
    fetch := fun s _ => .ok s
    fetch_head := fun _ => none }

/-- Engine whose three-way merges succeed, staging a single entry. -/
def cleanEngine : Git2Engine :=
  { conflictEngine with
    hash_tree := fun _ => 42
    cherrypick_index := fun _ _ => ⟨[("a.txt", 7)], []⟩
    revert_index := fun _ _ => ⟨[("a.txt", 5)], []⟩
    merge_index := fun _ _ => ⟨[("a.txt", 7)], []⟩ }

/-- Engine whose merge analysis reports a fast-forward. -/
def ffEngine : Git2Engine :=
  { conflictEngine with merge_analysis := fun _ _ => ⟨false, true, false⟩ }

/-- C1.  For every cherry-pick, revert, or merge whose underlying operation
leaves unresolved conflicts in the index, the operation returns the
MergeConflict error and performs no cleanup: the final state differs from
the pre-operation state only in the index — which holds exactly the
conflicted result the engine staged — and in the in-progress sequencer
marker, which is left set (`repo.cleanup_state()` is never reached).  In
particular the commit store, the refs and the working tree are untouched:
no commit object is created, and the conflicted index is what a subsequent
get_repo_status reads. -/
theorem conflict_aborts_without_cleanup
    (eng : Git2Engine) (s : RepoState) (oid : Oid) (name : String)
    (tip : Oid) (c : CommitObj)
    (hfind : findCommit s oid = some c)
    (hbr : lookupBranch s name = some tip)
    (hcp : (eng.cherrypick_index s oid).has_conflicts = true)
    (hrv : (eng.revert_index s oid).has_conflicts = true)
    (hmc : (eng.merge_index s oid).has_conflicts = true)
    (hmb : (eng.merge_index s tip).has_conflicts = true)
    (hana1 : (eng.merge_analysis s oid).up_to_date = false)
    (hana2 : (eng.merge_analysis s oid).fast_forward = false)
    (hanb1 : (eng.merge_analysis s tip).up_to_date = false)
    (hanb2 : (eng.merge_analysis s tip).fast_forward = false)
    (hanb3 : (eng.merge_analysis s tip).normal = true) :
    cherry_pick_commit eng s oid =
      (.error .MergeConflict,
        { s with index := eng.cherrypick_index s oid, opState := .inProgress }) ∧
    revert_commit eng s oid =
      (.error .MergeConflict,
        { s with index := eng.revert_index s oid, opState := .inProgress }) ∧
    merge_commit eng s oid =
      (.error .MergeConflict,
        { s with index := eng.merge_index s oid, opState := .inProgress }) ∧
    merge_branch eng s name =
      (.error .MergeConflict,
        { s with index := eng.merge_index s tip, opState := .inProgress }) := by
  refine ⟨?_, ?_, ?_, ?_⟩
  · simp only [cherry_pick_commit, hfind]
    simp [hcp]
  · simp only [revert_commit, hfind]
    simp [hrv]
  · simp only [merge_commit, hfind]
    simp [hana1, hana2, hmc]
  · simp only [merge_branch, hbr]
    simp [hanb1, hanb2, hanb3, hmb]

/-- Witness for C1: all four operations, run on the concrete example
repository with a conflicting engine, abort with MergeConflict and leave
the conflicted index and the in-progress marker in place. -/
theorem conflict_aborts_without_cleanup_witness :
    cherry_pick_commit conflictEngine baseState 2 =
      (.error .MergeConflict,
        { baseState with index := ⟨[], ["a.txt"]⟩, opState := .inProgress }) ∧
    revert_commit conflictEngine baseState 2 =
      (.error .MergeConflict,
        { baseState with index := ⟨[], ["a.txt"]⟩, opState := .inProgress }) ∧
    merge_commit conflictEngine baseState 2 =
      (.error .MergeConflict,
        { baseState with index := ⟨[], ["a.txt"]⟩, opState := .inProgress }) ∧
    merge_branch conflictEngine baseState "feature" =
      (.error .MergeConflict,
        { baseState with index := ⟨[], ["a.txt"]⟩, opState := .inProgress }) :=
  conflict_aborts_without_cleanup conflictEngine baseState 2 "feature" 2
    commitFeat rfl rfl rfl rfl rfl rfl rfl rfl rfl rfl rfl

/-- C2 (evaluation at the failing input).  A conflict-free cherry-pick of
the upstream-authored commit 2, on a repository configured with signature
sigRepo, synthesizes commit 100 whose AUTHOR is the repository signature
and whose COMMITTER is the original upstream author — the code passes
`&sig` in libgit2's author position and `&commit.author()` in the committer
position, the reverse of the documented identity assignment.  The revert
half behaves as documented: both identities are the repository signature. -/
theorem cherry_pick_identities_swapped :
    findCommit (cherry_pick_commit cleanEngine baseState 2).2 100 =
      some ⟨sigRepo, sigUpstream, "feat", 42, [1]⟩ ∧
    findCommit (revert_commit cleanEngine baseState 2).2 100 =
      some ⟨sigRepo, sigRepo,
        "Revert \"feat\"\n\nThis reverts commit 2.", 42, [1]⟩ ∧
    sigRepo ≠ sigUpstream :=
  ⟨rfl, by decide, by decide⟩

/-- C3 (evaluation at the failing input).  On the example repository —
HEAD attached to branch `main` at commit 1 — with a merge analysis
reporting FastForward towards commit 2, merge_commit does not move the
branch ref at all: `find_reference("HEAD")` hands the symbolic HEAD
reference to `set_target`, which libgit2 rejects, so the operation returns
the wrapped engine error and the repository state is completely unchanged
(`main` still points at 1, nothing is checked out). -/
theorem merge_commit_ff_fails_on_attached_head :
    merge_commit ffEngine baseState 2 =
      (.error (.Wrapped "cannot set OID on symbolic reference"), baseState) ∧
    baseState.head = .attached "main" ∧
    lookupBranch baseState "main" = some 1 ∧
    (ffEngine.merge_analysis baseState 2).fast_forward = true :=
  ⟨rfl, rfl, rfl, rfl⟩

/-! ## Status engine mutations (status.rs) -/

/-- Embedding of `index.add_path(path)` (libgit2 `git_index_add_bypath`):
reads the working-tree content of the path — failing with a not-found
engine error when the file does not exist on disk — hashes it as a blob,
replaces the stage-0 entry and clears any conflict stages for the path.
Only the in-memory index handle changes. -/
def add_path (eng : Git2Engine) (wd : List (Path × String))
    (idx : IndexState) (p : Path) : Except GitError IndexState :=
  match lookupA wd p with
  | none => .error (.Wrapped ("could not find '" ++ p ++ "' to stat"))
  | some content =>
    .ok ⟨setEntry idx.entries p (eng.hash_blob content),
         idx.conflicted.filter (fun q => q != p)⟩

/-- The add loop of stage_files over the in-memory index handle. -/
def addAll (eng : Git2Engine) (wd : List (Path × String)) :
    IndexState → List Path → Except GitError IndexState
  | idx, [] => .ok idx
  | idx, p :: rest =>
    match add_path eng wd idx p with
    | .error e => .error e
    | .ok idx2 => addAll eng wd idx2 rest

/-- Embedding of status.rs `stage_files` (lines 107-116): `repo.index()`
loads the on-disk index into memory, each listed path is added to that
in-memory handle in order, and only after every add has succeeded does
`index.write()` persist the handle to disk.  An early `?` return therefore
leaves the on-disk index — the `index` field of the state — untouched. -/
def stage_files (eng : Git2Engine) (s : RepoState) (paths : List Path) :
    Except GitError Unit × RepoState :=
  match addAll eng s.workdir s.index paths with
  | .error e => (.error e, s)
  | .ok mem => (.ok (), { s with index := mem })

/-- One iteration of the unstage_files loop (status.rs lines 124-137):
a path present in the HEAD tree is reset to HEAD's version of its entry
(`repo.reset_default(Some(&head_object), [path])`), a path absent from
HEAD has its entry removed from the index (`index.remove_path`, libgit2
`git_index_remove_bypath`, which also drops conflict stages and tolerates
an already-absent path). -/
def unstage_one (htree : List (Path × Oid)) (idx : IndexState) (p : Path) :
    IndexState :=
  match lookupA htree p with
  | some b =>
    ⟨setEntry idx.entries p b, idx.conflicted.filter (fun q => q != p)⟩
  | none =>
    ⟨removeEntry idx.entries p, idx.conflicted.filter (fun q => q != p)⟩

/-- Embedding of status.rs `unstage_files` (lines 119-140): HEAD is peeled
to a commit and its tree up front — any failure aborts before any index
change — then each listed path is reset-to-HEAD or removed; the working
tree is never touched. -/
def unstage_files (s : RepoState) (paths : List Path) :
    Except GitError Unit × RepoState :=
  match head_peel_commit s with
  | .error e => (.error e, s)
  | .ok (_, c) =>
    match lookupO s.trees c.tree with
    | none => (.error (.Wrapped "object not found"), s)
    | some htree =>
      (.ok (), { s with index := paths.foldl (unstage_one htree) s.index })

/-! ## Lookup lemmas for the association-list index -/

theorem lookupA_append (l1 l2 : List (Path × Oid)) (p : Path) :
    lookupA (l1 ++ l2) p =
      match lookupA l1 p with
      | some v => some v
      | none => lookupA l2 p := by
  induction l1 with
  | nil => simp [lookupA]
  | cons e rest ih =>
    obtain ⟨q, v⟩ := e
    by_cases h : q = p <;> simp [lookupA, h, ih]

theorem lookupA_filter_self (es : List (Path × Oid)) (p : Path) :
    lookupA (es.filter (fun e => e.1 != p)) p = none := by
  induction es with
  | nil => rfl
  | cons e rest ih =>
    obtain ⟨q, v⟩ := e
    by_cases h : q = p <;> simp [List.filter_cons, lookupA, bne_iff_ne, h, ih]

theorem lookupA_filter_other (es : List (Path × Oid)) (p q : Path)
    (h : p ≠ q) :
    lookupA (es.filter (fun e => e.1 != q)) p = lookupA es p := by
  induction es with
  | nil => rfl
  | cons e rest ih =>
    obtain ⟨r, v⟩ := e
    by_cases hr : r = q
    · have hrp : ¬ r = p := fun hc => h (hc ▸ hr)
      have hqp : ¬ q = p := fun hc => h hc.symm
      simp [List.filter_cons, lookupA, bne_iff_ne, hr, hrp, hqp, ih]
    · by_cases hp : r = p <;>
        simp [List.filter_cons, lookupA, bne_iff_ne, hr, hp, h, ih]

theorem lookupA_setEntry_self (es : List (Path × Oid)) (p : Path)
    (b : Oid) : lookupA (setEntry es p b) p = some b := by
  simp [setEntry, lookupA_append, lookupA_filter_self, lookupA]

theorem lookupA_setEntry_other (es : List (Path × Oid)) (p q : Path)
    (b : Oid) (h : p ≠ q) : lookupA (setEntry es q b) p = lookupA es p := by
  rw [setEntry, lookupA_append, lookupA_filter_other es p q h]
  cases lookupA es p <;> simp [lookupA, Ne.symm h]

theorem lookupA_removeEntry_self (es : List (Path × Oid))
    (p : Path) : lookupA (removeEntry es p) p = none :=
  lookupA_filter_self es p

theorem lookupA_removeEntry_other (es : List (Path × Oid))
    (p q : Path) (h : p ≠ q) : lookupA (removeEntry es q) p = lookupA es p :=
  lookupA_filter_other es p q h

theorem unstage_one_entry_self (htree : List (Path × Oid)) (idx : IndexState)
    (p : Path) :
    lookupA (unstage_one htree idx p).entries p = lookupA htree p := by
  unfold unstage_one
  cases h : lookupA htree p <;>
    simp [lookupA_setEntry_self, lookupA_removeEntry_self]

theorem unstage_one_entry_other (htree : List (Path × Oid)) (idx : IndexState)
    (p q : Path) (h : p ≠ q) :
    lookupA (unstage_one htree idx q).entries p = lookupA idx.entries p := by
  unfold unstage_one
  cases hq : lookupA htree q <;>
    simp [lookupA_setEntry_other _ _ _ _ h, lookupA_removeEntry_other _ _ _ h]

theorem unstage_one_not_conflicted (htree : List (Path × Oid))
    (idx : IndexState) (p q : Path) (h : p ∉ idx.conflicted) :
    p ∉ (unstage_one htree idx q).conflicted := by
  unfold unstage_one
  cases lookupA htree q <;> simp_all [List.mem_filter]

theorem unstage_one_conflicted_cleared (htree : List (Path × Oid))
    (idx : IndexState) (p : Path) :
    p ∉ (unstage_one htree idx p).conflicted := by
  unfold unstage_one
  cases lookupA htree p <;> simp [List.mem_filter]

theorem unstage_fold_entry_untouched (htree : List (Path × Oid)) (p : Path) :
    ∀ (paths : List Path) (idx : IndexState), p ∉ paths →
      lookupA (paths.foldl (unstage_one htree) idx).entries p =
        lookupA idx.entries p := by
  intro paths
  induction paths with
  | nil => intro idx _; rfl
  | cons q rest ih =>
    intro idx hp
    have hq : p ≠ q := fun h => hp (h ▸ List.mem_cons_self q rest)
    have hrest : p ∉ rest := fun h => hp (List.mem_cons_of_mem q h)
    simpa [List.foldl_cons, ih _ hrest] using
      unstage_one_entry_other htree idx p q hq

theorem unstage_fold_conflict_untouched (htree : List (Path × Oid))
    (p : Path) :
    ∀ (paths : List Path) (idx : IndexState), p ∉ idx.conflicted →
      p ∉ (paths.foldl (unstage_one htree) idx).conflicted := by
  intro paths
  induction paths with
  | nil => intro idx h; exact h
  | cons q rest ih =>
    intro idx hp
    exact ih _ (unstage_one_not_conflicted htree idx p q hp)

theorem unstage_fold_entry (htree : List (Path × Oid)) (p : Path) :
    ∀ (paths : List Path) (idx : IndexState), p ∈ paths →
      lookupA (paths.foldl (unstage_one htree) idx).entries p =
        lookupA htree p := by
  intro paths
  induction paths with
  | nil => intro idx h; simp at h
  | cons q rest ih =>
    intro idx hp
    by_cases hrest : p ∈ rest
    · simpa [List.foldl_cons] using ih (unstage_one htree idx q) hrest
    · have hq : p = q := by
        rcases List.mem_cons.mp hp with h | h
        · exact h
        · exact absurd h hrest
      subst hq
      simpa [List.foldl_cons,
        unstage_fold_entry_untouched htree p rest _ hrest] using
        unstage_one_entry_self htree idx p

theorem unstage_fold_conflict (htree : List (Path × Oid)) (p : Path) :
    ∀ (paths : List Path) (idx : IndexState), p ∈ paths →
      p ∉ (paths.foldl (unstage_one htree) idx).conflicted := by
  intro paths
  induction paths with
  | nil => intro idx h; simp at h
  | cons q rest ih =>
    intro idx hp
    by_cases hrest : p ∈ rest
    · simpa [List.foldl_cons] using ih (unstage_one htree idx q) hrest
    · have hq : p = q := by
        rcases List.mem_cons.mp hp with h | h
        · exact h
        · exact absurd h hrest
      subst hq
      exact unstage_fold_conflict_untouched htree p rest _
        (unstage_one_conflicted_cleared htree idx p)

/-- C5.  For every call unstage_files(repo, paths) on a repository whose
HEAD peels to a commit with tree `htree`: the call succeeds, the working
tree is byte-for-byte unchanged, and every listed path ends with its index
entry equal to HEAD's version of the path — `some b` when the HEAD tree
has the path at blob `b` (reset to HEAD), `none` when HEAD does not have
the path (removed from the index entirely, conflict stages included). -/
theorem unstage_files_resets_or_removes (s : RepoState) (paths : List Path)
    (ho : Oid) (c : CommitObj) (htree : List (Path × Oid))
    (hhead : head_peel_commit s = .ok (ho, c))
    (htr : lookupO s.trees c.tree = some htree)
    (p : Path) (hp : p ∈ paths) :
    (unstage_files s paths).1 = .ok () ∧
    (unstage_files s paths).2.workdir = s.workdir ∧
    lookupA (unstage_files s paths).2.index.entries p = lookupA htree p ∧
    p ∉ (unstage_files s paths).2.index.conflicted := by
  refine ⟨by simp [unstage_files, hhead, htr], by simp [unstage_files, hhead, htr], ?_, ?_⟩
  · simp only [unstage_files, hhead, htr]
    exact unstage_fold_entry htree p paths s.index hp
  · simp only [unstage_files, hhead, htr]
    exact unstage_fold_conflict htree p paths s.index hp

/-- Example repository with HEAD attached to `feature`, whose tree holds
"a.txt". -/
def featureState : RepoState := { baseState with head := .attached "feature" }

/-- Witness for C5: unstaging ["a.txt", "b.txt"] on the feature state
succeeds, leaves the working tree alone, and removes "b.txt" — absent from
the HEAD tree — from the index entirely. -/
theorem unstage_files_resets_or_removes_witness :
    (unstage_files featureState ["a.txt", "b.txt"]).1 = .ok () ∧
    (unstage_files featureState ["a.txt", "b.txt"]).2.workdir =
      featureState.workdir ∧
    lookupA (unstage_files featureState ["a.txt", "b.txt"]).2.index.entries
      "b.txt" = lookupA [("a.txt", 5)] "b.txt" ∧
    "b.txt" ∉
      (unstage_files featureState ["a.txt", "b.txt"]).2.index.conflicted :=
  unstage_files_resets_or_removes featureState ["a.txt", "b.txt"] 2
    commitFeat [("a.txt", 5)] rfl rfl "b.txt" (by decide)

theorem addAll_error_of_missing (eng : Git2Engine)
    (wd : List (Path × String)) (p : Path)
    (hmiss : lookupA wd p = none) :
    ∀ (paths : List Path) (idx : IndexState), p ∈ paths →
      ∃ e, addAll eng wd idx paths = .error e := by
  intro paths
  induction paths with
  | nil => intro idx h; simp at h
  | cons q rest ih =>
    intro idx hp
    rcases List.mem_cons.mp hp with hq | hrest
    · subst hq
      refine ⟨.Wrapped ("could not find '" ++ p ++ "' to stat"), ?_⟩
      simp [addAll, add_path, hmiss]
    · cases hap : add_path eng wd idx q with
      | error e => exact ⟨e, by simp [addAll, hap]⟩
      | ok idx2 =>
        obtain ⟨e, he⟩ := ih idx2 hrest
        exact ⟨e, by simp [addAll, hap, he]⟩

/-- C10.  stage_files is all-or-nothing at the index-file level:
`index.write()` runs only after every listed path was added to the
in-memory handle, so when any listed path is absent from the working tree
the call returns the add error and the post-call repository state — in
particular its on-disk index — is exactly the pre-call state. -/
theorem stage_files_all_or_nothing (eng : Git2Engine) (s : RepoState)
    (paths : List Path) (p : Path) (hp : p ∈ paths)
    (hmiss : lookupA s.workdir p = none) :
    (∃ e, (stage_files eng s paths).1 = .error e) ∧
    (stage_files eng s paths).2 = s := by
  obtain ⟨e, he⟩ :=
    addAll_error_of_missing eng s.workdir p hmiss paths s.index hp
  exact ⟨⟨e, by simp [stage_files, he]⟩, by simp [stage_files, he]⟩

/-- Witness for C10: staging ["a.txt", "missing.txt"] on the example state,
whose working tree lacks "missing.txt", errors out and leaves the state —
on-disk index included — unchanged. -/
theorem stage_files_all_or_nothing_witness :
    (∃ e, (stage_files cleanEngine baseState ["a.txt", "missing.txt"]).1 =
      .error e) ∧
    (stage_files cleanEngine baseState ["a.txt", "missing.txt"]).2 =
      baseState :=
  stage_files_all_or_nothing cleanEngine baseState ["a.txt", "missing.txt"]
    "missing.txt" (by decide) rfl

/-! ## Branch deletion (branch.rs) -/

/-- Bounded transitive parent expansion over the commit store. -/
def ancestorsAux (commits : List (Oid × CommitObj)) :
    Nat → List Oid → List Oid
  | 0, acc => acc
  | fuel + 1, acc =>
    let next := acc.flatMap (fun o =>
      match lookupO commits o with
      | some c => c.parents
      | none => [])
    let fresh := next.filter (fun o => !acc.contains o)
    if fresh.isEmpty then acc else ancestorsAux commits fuel (acc ++ fresh)

/-- Commits reachable from `o`, itself included; the fuel bound exceeds the
store size, so the expansion has closed. -/
def ancestors (s : RepoState) (o : Oid) : List Oid :=
  ancestorsAux s.commits (s.commits.length + 1) [o]

/-- Embedding of `repo.merge_base(a, b).is_ok()`: libgit2 reports
GIT_ENOTFOUND exactly when the two commits share no reachable ancestor. -/
def merge_base_exists (s : RepoState) (a b : Oid) : Bool :=
  (ancestors s a).any (fun o => (ancestors s b).contains o)

/-- Embedding of branch.rs `delete_branch` (lines 123-156): refuse when the
resolved HEAD shorthand names the branch; look the branch up (BranchNotFound
otherwise); without force — and when the branch is not HEAD and both tips
peel to commits — refuse with the not-fully-merged message when no
merge-base exists; otherwise delete the branch ref. -/
def delete_branch (s : RepoState) (name : String) (force : Bool) :
    Except GitError Unit × RepoState :=
  if head_shorthand s = some name then
    (.error (.OperationFailed "Cannot delete the current branch"), s)
  else
    match lookupBranch s name with
    | none => (.error (.BranchNotFound name), s)
    | some tip =>
      let deleted : RepoState :=
        { s with branches := s.branches.filter (fun e => e.1 != name) }
      if force then (.ok (), deleted)
      else
        let isHead : Bool := match s.head with
          | .attached hb => hb == name
          | _ => false
        if isHead then (.ok (), deleted)
        else
          match resolve_head s with
          | .error _ => (.ok (), deleted)
          | .ok ho =>
            match findCommit s ho, findCommit s tip with
            | some _, some _ =>
              if merge_base_exists s ho tip then (.ok (), deleted)
              else
                (.error (.OperationFailed ("Branch '" ++ name ++
                  "' is not fully merged. Use force to delete.")), s)
            | _, _ => (.ok (), deleted)

/-- C6.  On a repository whose HEAD is attached to branch `b` (which peels
to a commit), delete_branch always fails with
OperationFailed("Cannot delete the current branch") when asked to delete
`b` itself, leaving the state unchanged; for another existing branch it
fails without deleting — when force is false — whenever no merge-base
exists between the branch tip and HEAD, and deletes the branch ref in
every other case (force, or an existing merge-base). -/
theorem delete_branch_spec (s : RepoState) (name : String) (force : Bool)
    (b : String) (tip ho : Oid) (hc tc : CommitObj)
    (hhead : s.head = .attached b)
    (hb : lookupBranch s b = some ho)
    (hfc : findCommit s ho = some hc)
    (htip : lookupBranch s name = some tip)
    (htc : findCommit s tip = some tc) :
    (b = name →
      delete_branch s name force =
        (.error (.OperationFailed "Cannot delete the current branch"), s)) ∧
    (b ≠ name → force = false → merge_base_exists s ho tip = false →
      delete_branch s name force =
        (.error (.OperationFailed ("Branch '" ++ name ++
          "' is not fully merged. Use force to delete.")), s)) ∧
    (b ≠ name → (force = true ∨ merge_base_exists s ho tip = true) →
      delete_branch s name force =
        (.ok (), { s with branches :=
          s.branches.filter (fun e => e.1 != name) })) := by
  have hshort : head_shorthand s = some b := by
    simp [head_shorthand, hhead, hb]
  refine ⟨?_, ?_, ?_⟩
  · intro heq
    subst heq
    simp [delete_branch, hshort]
  · intro hne hforce hmb
    have hsh : ¬ head_shorthand s = some name := by
      rw [hshort]
      exact fun hx => hne (Option.some_injective _ hx)
    simp [delete_branch, hsh, htip, hforce, hhead, hne, resolve_head, hb,
      hfc, htc, hmb, beq_iff_eq]
  · intro hne hcase
    have hsh : ¬ head_shorthand s = some name := by
      rw [hshort]
      exact fun hx => hne (Option.some_injective _ hx)
    rcases hcase with hforce | hmb
    · simp [delete_branch, hsh, htip, hforce]
    · simp only [delete_branch, hsh, if_false, htip]
      by_cases hforce : force
      · simp [hforce]
      · simp [hforce, hhead, hne, resolve_head, hb, hfc, htc, hmb,
          beq_iff_eq]

/-- Witness for C6: on the example repository, deleting the checked-out
`main` is refused with the exact message and no state change, while
deleting `feature` (whose tip shares history with HEAD) succeeds without
force. -/
theorem delete_branch_spec_witness :
    delete_branch baseState "main" false =
      (.error (.OperationFailed "Cannot delete the current branch"),
        baseState) ∧
    delete_branch baseState "feature" false =
      (.ok (), { baseState with branches :=
        baseState.branches.filter (fun e => e.1 != "feature") }) :=
  ⟨(delete_branch_spec baseState "main" false "main" 1 1 commitInit
      commitInit rfl rfl rfl rfl rfl).1 rfl,
   (delete_branch_spec baseState "feature" false "main" 2 1 commitInit
      commitFeat rfl rfl rfl rfl rfl).2.2 (by decide) (Or.inr (by decide))⟩

/-! ## Commit diff summary (commit.rs get_commit_diff) -/

/-- Status-kind mapping of get_commit_diff (commit.rs lines 455-462): the
catch-all arm folds every other delta kind into Modified. -/
def delta_status_kind : DeltaStatus → FileStatusType
  | .added => .added
  | .untrackedD => .added
  | .deleted => .deleted
  | .modified => .modified
  | .renamed => .renamed
  | .conflicted => .conflict
  | .other => .modified

/-- FileDiff skeleton built for one delta (commit.rs lines 443-474): path
from the new file falling back to the old, old_path only for renames, no
hunks, and zeroed counters awaiting the stats pass. -/
def delta_to_file_diff (d : DeltaInfo) : FileDiff :=
  { path := (d.new_path.or d.old_path).getD ""
    old_path := if d.status = .renamed then d.old_path else none
    status := delta_status_kind d.status
    hunks := []
    is_binary := d.new_binary || d.old_binary
    additions := 0
    deletions := 0 }

/-- First-parent tree of a commit: `none` stands for the empty tree of a
root commit; a missing first-parent object is a lookup error
(`commit.parent(0)?`). -/
def parent_tree (s : RepoState) (c : CommitObj) :
    Except GitError (Option Oid) :=
  match c.parents with
  | [] => .ok none
  | p :: _ =>
    match findCommit s p with
    | some pc => .ok (some pc.tree)
    | none => .error (.Wrapped "object not found")

/-- Embedding of commit.rs `get_commit_diff` (lines 426-492): diff the
first-parent tree (empty for a root commit) against the commit tree, build
one hunk-less FileDiff per delta, then overwrite every file's counters with
the diff totals divided — integer division — by the number of files. -/
def get_commit_diff (eng : Git2Engine) (s : RepoState) (oid : Oid) :
    Except GitError (List FileDiff) :=
  match findCommit s oid with
  | none => .error (.CommitNotFound oid)
  | some c =>
    match parent_tree s c with
    | .error e => .error e
    | .ok pt =>
      let ds := eng.diff_deltas s pt c.tree
      let base := ds.map delta_to_file_diff
      if base.isEmpty then .ok base
      else
        let n := base.length
        let addPer := eng.diff_insertions s pt c.tree / n
        let delPer := eng.diff_deletions s pt c.tree / n
        .ok (base.map (fun fd =>
          { fd with additions := addPer, deletions := delPer }))

/-- C8.  For every commit with at least one diff delta, get_commit_diff
diffs its tree against the first-parent tree `pt` (`none`, the empty tree,
for a root commit) and returns exactly one FileDiff per delta, in which
hunks is always the empty list and every FileDiff carries the same
additions count (total insertions over number of files, integer division)
and the same deletions count (total deletions over number of files). -/
theorem get_commit_diff_uniform_summary (eng : Git2Engine) (s : RepoState)
    (oid : Oid) (c : CommitObj) (pt : Option Oid)
    (hfind : findCommit s oid = some c)
    (hpt : parent_tree s c = .ok pt)
    (hne : eng.diff_deltas s pt c.tree ≠ []) :
    get_commit_diff eng s oid =
      .ok ((eng.diff_deltas s pt c.tree).map (fun d =>
        { delta_to_file_diff d with
          additions := eng.diff_insertions s pt c.tree /
            (eng.diff_deltas s pt c.tree).length,
          deletions := eng.diff_deletions s pt c.tree /
            (eng.diff_deltas s pt c.tree).length })) ∧
    ∀ l, get_commit_diff eng s oid = .ok l →
      l.length = (eng.diff_deltas s pt c.tree).length ∧
      ∀ fd ∈ l, fd.hunks = [] ∧
        fd.additions = eng.diff_insertions s pt c.tree /
          (eng.diff_deltas s pt c.tree).length ∧
        fd.deletions = eng.diff_deletions s pt c.tree /
          (eng.diff_deltas s pt c.tree).length := by
  have hbase :
      ((eng.diff_deltas s pt c.tree).map delta_to_file_diff).isEmpty =
        false := by
    cases hds : eng.diff_deltas s pt c.tree with
    | nil => exact absurd hds hne
    | cons d l => rfl
  have hmain :
      get_commit_diff eng s oid =
        .ok ((eng.diff_deltas s pt c.tree).map (fun d =>
          { delta_to_file_diff d with
            additions := eng.diff_insertions s pt c.tree /
              (eng.diff_deltas s pt c.tree).length,
            deletions := eng.diff_deletions s pt c.tree /
              (eng.diff_deltas s pt c.tree).length })) := by
    simp only [get_commit_diff, hfind, hpt, hbase, Bool.false_eq_true,
      if_false, List.length_map, List.map_map]
    rfl
  refine ⟨hmain, ?_⟩
  intro l hl
  rw [hmain] at hl
  simp only [Except.ok.injEq] at hl
  subst hl
  constructor
  · simp
  · intro fd hfd
    simp only [List.mem_map] at hfd
    obtain ⟨d, _, hd⟩ := hfd
    subst hd
    exact ⟨rfl, rfl, rfl⟩

/-- Engine producing a two-delta diff with 5 insertions and 3 deletions. -/
def diffEngine : Git2Engine :=
  { cleanEngine with
    diff_deltas := fun _ _ _ =>
      [⟨some "a.txt", none, .modified, false, false⟩,
       ⟨some "b.txt", none, .added, false, false⟩]
    diff_insertions := fun _ _ _ => 5
    diff_deletions := fun _ _ _ => 3 }

/-- Witness for C8: the two-file diff of commit 2 distributes 5 insertions
and 3 deletions as 2 additions and 1 deletion on each file, without hunks. -/
theorem get_commit_diff_uniform_summary_witness :
    get_commit_diff diffEngine baseState 2 =
      .ok [⟨"a.txt", none, .modified, [], false, 2, 1⟩,
           ⟨"b.txt", none, .added, [], false, 2, 1⟩] :=
  (get_commit_diff_uniform_summary diffEngine baseState 2 commitFeat
    (some 10) rfl rfl (by decide)).1

/-! ## Branch listing and tracking info (branch.rs) -/

/-- Listing row for one branch (git/mod.rs `BranchInfo`). -/
structure BranchInfo where
  name : String
  is_remote : Bool
  is_current : Bool
  upstream : Option String
  ahead : Nat
  behind : Nat
deriving DecidableEq, Repr

/-- Upstream tracking reference of a local branch: its configured name (as
`branch.upstream()?.name()` reads it) and the id the upstream ref points
to. -/
structure UpstreamRef where
  name : Option String
  target : Option Oid
deriving DecidableEq, Repr

/-- Data of one local `git2::Branch` as get_tracking_info consumes it. -/
structure LocalBranch where
  name : String
  target : Option Oid
  upstream : Option UpstreamRef
deriving DecidableEq, Repr

/-- Repository handle obtained by `Repository::open_from_env()` inside
get_tracking_info — crucially NOT the handle being queried but one
re-opened from the process environment; `none` models a failed open.
`graph_ahead_behind` returns `none` when the graph query fails. -/
structure EnvRepo where
  graph_ahead_behind : Oid → Oid → Option (Nat × Nat)

/-- Embedding of branch.rs `get_tracking_info` (lines 59-80): the upstream
NAME is read from the queried branch handle, but the ahead/behind counts
come from the environment-opened repository; whenever the branch target,
the upstream ref, the upstream target, the env open, or the graph query is
unavailable, the fallback (upstream, 0, 0) is returned. -/
def get_tracking_info (env : Option EnvRepo) (b : LocalBranch) :
    Option String × Nat × Nat :=
  let upstream := b.upstream.bind (fun u => u.name)
  match b.target, b.upstream with
  | some lo, some ub =>
    match ub.target with
    | some uo =>
      match env with
      | some er =>
        match er.graph_ahead_behind lo uo with
        | some (a, be) => (upstream, a, be)
        | none => (upstream, 0, 0)
      | none => (upstream, 0, 0)
    | none => (upstream, 0, 0)
  | _, _ => (upstream, 0, 0)

/-- Embedding of branch.rs `get_branches` (lines 6-56) over the listed
local and remote branches: locals carry `is_current` (HEAD shorthand match)
and the tracking info; remotes unconditionally carry no upstream and zero
counts. -/
def get_branches (env : Option EnvRepo) (current : Option String)
    (locals : List LocalBranch) (remotes : List String) : List BranchInfo :=
  locals.map (fun b =>
    let t := get_tracking_info env b
    { name := b.name
      is_remote := false
      is_current := current == some b.name
      upstream := t.1
      ahead := t.2.1
      behind := t.2.2 })
  ++ remotes.map (fun n =>
    { name := n, is_remote := true, is_current := false,
      upstream := none, ahead := 0, behind := 0 })

/-- C9.  For every local branch with a configured upstream, the ahead and
behind counts reported by get_branches come from the repository re-opened
via Repository::open_from_env (the `env` argument) and not from the handle
being listed; whenever that open, the upstream target lookup, or the graph
query fails, the branch row still carries its upstream name but reports
ahead = 0 and behind = 0; when everything succeeds the counts are exactly
the env repository's graph answer. -/
theorem get_tracking_info_env_fallback (env : Option EnvRepo)
    (b : LocalBranch) (lo : Oid)
    (hlo : b.target = some lo) :
    ((env = none ∨ (b.upstream.bind (fun u => u.target)) = none ∨
        (∀ er uo, env = some er →
          (b.upstream.bind (fun u => u.target)) = some uo →
          er.graph_ahead_behind lo uo = none)) →
      get_tracking_info env b = (b.upstream.bind (fun u => u.name), 0, 0)) ∧
    (∀ er uo a be, env = some er →
        (b.upstream.bind (fun u => u.target)) = some uo →
        er.graph_ahead_behind lo uo = some (a, be) →
      get_tracking_info env b = (b.upstream.bind (fun u => u.name), a, be)) ∧
    (∀ current locals remotes, b ∈ locals →
      (env = none ∨ (b.upstream.bind (fun u => u.target)) = none ∨
        (∀ er uo, env = some er →
          (b.upstream.bind (fun u => u.target)) = some uo →
          er.graph_ahead_behind lo uo = none)) →
      ({ name := b.name, is_remote := false,
         is_current := current == some b.name,
         upstream := b.upstream.bind (fun u => u.name),
         ahead := 0, behind := 0 } : BranchInfo) ∈
        get_branches env current locals remotes) := by
  have hfall : (env = none ∨ (b.upstream.bind (fun u => u.target)) = none ∨
      (∀ er uo, env = some er →
        (b.upstream.bind (fun u => u.target)) = some uo →
        er.graph_ahead_behind lo uo = none)) →
      get_tracking_info env b =
        (b.upstream.bind (fun u => u.name), 0, 0) := by
    intro h
    cases hub : b.upstream with
    | none => simp [get_tracking_info, hlo, hub]
    | some ub =>
      cases hut : ub.target with
      | none => simp [get_tracking_info, hlo, hub, hut]
      | some uo =>
        cases henv : env with
        | none => simp [get_tracking_info, hlo, hub, hut]
        | some er =>
          rcases h with h | h | h
          · rw [h] at henv
            exact Option.noConfusion henv
          · rw [hub] at h
            simp [hut] at h
          · have hg := h er uo henv (by simp [hub, hut])
            simp [get_tracking_info, hlo, hub, hut, hg]
  refine ⟨hfall, ?_, ?_⟩
  · intro er uo a be henv hut hg
    cases hub : b.upstream with
    | none =>
      rw [hub] at hut
      simp at hut
    | some ub =>
      rw [hub] at hut
      simp at hut
      subst henv
      simp [get_tracking_info, hlo, hub, hut, hg]
  · intro current locals remotes hmem h
    have ht := hfall h
    simp only [get_branches, List.mem_append]
    left
    refine List.mem_map.mpr ⟨b, hmem, ?_⟩
    simp [ht]

/-- Local branch of the witness repository: tracked, but the env-repo open
will fail. -/
def trackedBranch : LocalBranch :=
  ⟨"main", some 1, some ⟨some "origin/main", some 2⟩⟩

/-- Witness for C9: with a failing Repository::open_from_env, the tracked
branch is listed with its upstream name and zero ahead/behind counts. -/
theorem get_tracking_info_env_fallback_witness :
    get_tracking_info none trackedBranch = (some "origin/main", 0, 0) ∧
    ({ name := "main", is_remote := false, is_current := true,
       upstream := some "origin/main", ahead := 0, behind := 0 } :
      BranchInfo) ∈
      get_branches none (some "main") [trackedBranch] ["origin/main"] :=
  ⟨(get_tracking_info_env_fallback none trackedBranch 1 rfl).1
      (Or.inl rfl),
   (get_tracking_info_env_fallback none trackedBranch 1 rfl).2.2
      (some "main") [trackedBranch] ["origin/main"]
      (List.mem_singleton.mpr rfl) (Or.inl rfl)⟩

/-! ## Pull (remote.rs) -/

/-- Outcome record of remote.rs `pull` (remote.rs `PullResult`). -/
structure PullResult where
  fast_forward : Bool
  conflicts : Bool
  updated_files : Nat
deriving DecidableEq, Repr

/-- Embedding of remote.rs `pull` (lines 180-255): fetch, read FETCH_HEAD,
tri-state merge analysis.  UpToDate returns an all-clear result.  A
fast-forward retargets the branch ref (a direct `refs/heads/...` reference,
so `set_target` succeeds here), re-attaches HEAD to it and force-checks-out,
reporting updated_files = 1 ("simplified", per the source comment).  A
normal analysis stages the content merge and — when the index has
unresolved conflicts — returns Ok(PullResult { fast_forward: false,
conflicts: true, updated_files: 0 }) WITHOUT raising an error and without
cleanup; a clean content merge commits with the repository signature as
both author and committer, cleans up and reports updated_files = 1.  Any
other analysis outcome is OperationFailed. -/
def pull (eng : Git2Engine) (s : RepoState) (remote_name branch_name : String) :
    Except GitError PullResult × RepoState :=
  match eng.fetch s remote_name with
  | .error e => (.error e, s)
  | .ok s0 =>
    match eng.fetch_head s0 with
    | none => (.error (.Wrapped "reference not found"), s0)
    | some fo =>
      let ana := eng.merge_analysis s0 fo
      if ana.up_to_date then
        (.ok ⟨false, false, 0⟩, s0)
      else if ana.fast_forward then
        match lookupBranch s0 branch_name with
        | none => (.error (.Wrapped "reference not found"), s0)
        | some _ =>
          let s1 := setBranch s0 branch_name fo
          let s2 := { s1 with head := .attached branch_name }
          let s3 := { s2 with workdir := eng.checkout_head_force s2 }
          (.ok ⟨true, false, 1⟩, s3)
      else if ana.normal then
        let s1 : RepoState :=
          { s0 with index := eng.merge_index s0 fo, opState := .inProgress }
        if s1.index.has_conflicts then
          (.ok ⟨false, true, 0⟩, s1)
        else
          match s1.sig with
          | none =>
            (.error (.Wrapped "config value user.name was not found"), s1)
          | some sig =>
            match head_peel_commit s1 with
            | .error e => (.error e, s1)
            | .ok (headOid, _) =>
              match findCommit s1 fo with
              | none => (.error (.Wrapped "object not found"), s1)
              | some _ =>
                let treeOid := eng.hash_tree s1.index.entries
                let s2 :=
                  { s1 with trees := (treeOid, s1.index.entries) :: s1.trees }
                let msg := "Merge branch '" ++ branch_name ++ "' of " ++
                  remote_name
                let (s3, _) := mk_commit s2 sig sig msg treeOid [headOid, fo]
                (.ok ⟨false, false, 1⟩, { s3 with opState := .clean })
      else
        (.error (.OperationFailed "Cannot pull: merge not possible"), s0)

/-- Engine whose fetch is a no-op, FETCH_HEAD resolves to commit 2, merge
analysis is Normal and the content merge conflicts on "a.txt". -/
def pullConflictEngine : Git2Engine :=
  { conflictEngine with fetch_head := fun _ => some 2 }

/-- Engine whose fetch is a no-op, FETCH_HEAD resolves to commit 2 and
merge analysis is FastForward. -/
def ffPullEngine : Git2Engine :=
  { ffEngine with fetch_head := fun _ => some 2 }

/-- C7 counterexample.  On the example repository, a pull whose post-fetch
merge analysis reports Normal and whose content merge leaves unresolved
conflicts in the index does NOT abort with the MergeConflict error: it
returns the successful PullResult { fast_forward: false, conflicts: true,
updated_files: 0 } (while still leaving the conflicted index and the
in-progress marker in place). -/
theorem pull_conflict_returns_ok_not_error :
    pull pullConflictEngine baseState "origin" "main" =
      (.ok ⟨false, true, 0⟩,
        { baseState with index := ⟨[], ["a.txt"]⟩,
                         opState := .inProgress }) ∧
    (pull pullConflictEngine baseState "origin" "main").1 ≠
      .error .MergeConflict := by
  refine ⟨rfl, ?_⟩
  intro h
  rw [show (pull pullConflictEngine baseState "origin" "main").1 =
    Except.ok ⟨false, true, 0⟩ from rfl] at h
  exact Except.noConfusion h

/-- C7 (amended).  A pull whose post-fetch merge analysis reports Normal
and whose content merge leaves unresolved conflicts in the index returns
the successful PullResult { conflicts: true, updated_files: 0 } — not the
MergeConflict error — leaving the conflicted index and in-progress state
in place with no cleanup; and every pull that returns successfully after
actually merging (any non-up-to-date analysis: fast-forward or merge
commit) reports updated_files = 1 unless it is that conflicted result. -/
theorem pull_conflict_flag_and_updated_files :
    (∀ (eng : Git2Engine) (s : RepoState) (remote branch : String)
        (s0 : RepoState) (fo : Oid),
      eng.fetch s remote = .ok s0 →
      eng.fetch_head s0 = some fo →
      (eng.merge_analysis s0 fo).up_to_date = false →
      (eng.merge_analysis s0 fo).fast_forward = false →
      (eng.merge_analysis s0 fo).normal = true →
      (eng.merge_index s0 fo).has_conflicts = true →
      pull eng s remote branch =
        (.ok ⟨false, true, 0⟩,
          { s0 with index := eng.merge_index s0 fo,
                    opState := .inProgress })) ∧
    (∀ (eng : Git2Engine) (s : RepoState) (remote branch : String)
        (s0 : RepoState) (fo : Oid) (r : PullResult) (s2 : RepoState),
      eng.fetch s remote = .ok s0 →
      eng.fetch_head s0 = some fo →
      (eng.merge_analysis s0 fo).up_to_date = false →
      pull eng s remote branch = (.ok r, s2) →
      r.updated_files = 1 ∨ r.conflicts = true) := by
  constructor
  · intro eng s remote branch s0 fo hf hfh h1 h2 h3 hconf
    simp only [pull, hf, hfh]
    simp [h1, h2, h3, hconf]
  · intro eng s remote branch s0 fo r s2 hf hfh h1 hok
    simp only [pull, hf, hfh, h1, Bool.false_eq_true, if_false] at hok
    repeat' split at hok
    all_goals simp only [Prod.mk.injEq, Except.ok.injEq] at hok
    all_goals
      first
        | (rcases hok with ⟨rfl, -⟩
           simp)
        | simp_all

/-- Witness for C7: a concrete conflicted pull yields the Ok-with-conflicts
result, and a concrete fast-forward pull reports updated_files = 1. -/
theorem pull_conflict_flag_and_updated_files_witness :
    pull pullConflictEngine baseState "origin" "main" =
      (.ok ⟨false, true, 0⟩,
        { baseState with index := ⟨[], ["a.txt"]⟩,
                         opState := .inProgress }) ∧
    ((⟨true, false, 1⟩ : PullResult).updated_files = 1 ∨
      (⟨true, false, 1⟩ : PullResult).conflicts = true) :=
  ⟨pull_conflict_flag_and_updated_files.1 pullConflictEngine baseState
      "origin" "main" baseState 2 rfl rfl rfl rfl rfl rfl,
   pull_conflict_flag_and_updated_files.2 ffPullEngine baseState
      "origin" "main" baseState 2 ⟨true, false, 1⟩
      { baseState with branches := [("main", 2), ("feature", 2)] }
      rfl rfl rfl rfl⟩

end LinuxGit
